import Mathlib

/-!
Shallow embedding of the quantity-reconciliation engine of
src/Contractor PO System/backend/routes/bills.js:

* the edit path, PUT /:billNumber/edit-qty (lines 300-592), and
* the reversal path, DELETE /:billNumber (lines 655-750).

Modelling conventions:
* JS numbers are rationals (the claims are about exact deltas, clamps and
  comparisons, not binary rounding); JS toFixed(n) followed by equality or
  parseFloat is modelled by rounding to n decimal digits.
* Dates (new Date()) are an abstract tick, a natural number parameter.
* The Mongo collections are lists of records; findOne is List.find? (first
  match), an in-place mutation of a found document followed by save is
  "modify the first matching element", deleteOne is "remove the first
  matching element", saving a fresh document appends it.
* The edit handler runs inside one transaction that is aborted on every
  error, so it is a pure function returning Except: an error result carries
  no state and models the aborted transaction (zero writes).
* Missing / null request fields are Option; JS truthiness checks on strings
  are modelled as the corresponding emptiness checks.
* Number.isFinite checks always pass in the rational model (NaN/Infinity
  have no rational counterpart).
-/

namespace BillsJs

attribute [local semireducible] Rat.add Rat.sub Rat.mul Rat.inv

/-- Round a rational to 2 decimal digits; models
parseFloat(Number(x).toFixed(2)) used for rate / valuePerBook matching. -/
def round2 (q : ℚ) : ℚ := (Rat.floor (q * 100 + 1 / 2) : ℚ) / 100

/-- Round a rational to 4 decimal digits; models the toFixed(4) component of
the intra-bill composite key (keys are only ever compared for equality, so
the decimal string is modelled by its rounded value). -/
def round4 (q : ℚ) : ℚ := (Rat.floor (q * 10000 + 1 / 2) : ℚ) / 10000

/-- JS String.prototype.trim, written with structural recursion over the
character list (Lean's own String.trim is defined on byte positions and
does not reduce inside the kernel). -/
def jsTrim (s : String) : String :=
  ⟨((s.data.dropWhile Char.isWhitespace).reverse.dropWhile Char.isWhitespace).reverse⟩

/-- Operation catalog document: _id and display name. -/
structure Operation where
  id : String
  opsName : String
  deriving Repr, DecidableEq

/-- One operation line of a bill job. -/
structure BillOp where
  opsName : String
  qtyBook : ℚ
  rate : ℚ
  qtyCompleted : ℚ
  totalValue : ℚ
  deriving Repr, DecidableEq

instance : Inhabited BillOp := ⟨⟨"", 0, 0, 0, 0⟩⟩

/-- One job of a bill. -/
structure BillJob where
  jobNumber : String
  clientName : String
  jobTitle : String
  ops : List BillOp
  deriving Repr, DecidableEq

instance : Inhabited BillJob := ⟨⟨"", "", "", []⟩⟩

/-- A bill document (fields relevant to the reconciliation engine). -/
structure Bill where
  billNumber : String
  contractorName : String
  paymentStatus : String
  isDeleted : Nat
  jobs : List BillJob
  deriving Repr, DecidableEq

/-- One operation of a JobopsMaster record. -/
structure JobOp where
  opId : String
  valuePerBook : ℚ
  totalOpsQty : ℚ
  pendingOpsQty : ℚ
  lastUpdatedDate : Nat
  deriving Repr, DecidableEq

/-- JobopsMaster document: one record per job. -/
structure JobopsMaster where
  jobId : String
  ops : List JobOp
  deriving Repr, DecidableEq

/-- One entry of a ContractorWD (contractor work-done) record; opsId is
null (none) on entries created by the edit path. -/
structure WDOp where
  opsId : Option String
  opsName : String
  valuePerBook : ℚ
  opsDoneQty : ℚ
  completionDate : Nat
  deriving Repr, DecidableEq

/-- ContractorWD document: one record per (contractorId, jobId). -/
structure ContractorWD where
  contractorId : String
  jobId : String
  opsDone : List WDOp
  deriving Repr, DecidableEq

/-- One element of the changes array of the edit request; Option models
absent / null fields. -/
structure Change where
  jobNumber : Option String
  opsName : Option String
  rate : Option ℚ
  newQtyCompleted : Option ℚ
  deriving Repr, DecidableEq

/-- A per-operation delta recorded by the edit path (deltasByJob values). -/
structure DeltaEntry where
  opsName : String
  rate : ℚ
  deltaQty : ℚ
  deriving Repr, DecidableEq

/-- A staged ContractorWD adjustment (contractorWDAdjustments element). -/
structure WDAdj where
  opsName : String
  valuePerBook : ℚ
  deltaQty : ℚ
  deriving Repr, DecidableEq

/-- The records an edit-qty request can touch: the addressed bill, the
JobopsMaster collection and the ContractorWD collection. -/
structure EditState where
  bill : Bill
  masters : List JobopsMaster
  ledgers : List ContractorWD
  deriving Repr, DecidableEq

/-- The error responses of the edit path (each aborts the transaction). -/
inductive EditError where
  | ContractorIdRequired
  | ChangesRequired
  | BillAlreadyPaid
  | ChangeJobNumberRequired
  | ChangeOpsNameRequired
  | ChangeNewQtyRequired
  | OperationNotFoundInBill
  | InvalidQuantity
  | JobMasterNotFound
  | OperationNotFoundInMaster
  | InsufficientPendingQuantity
  deriving Repr, DecidableEq

/-- Apply f to the first element satisfying p (models mutating the document
returned by a find and keeping the rest of the array). -/
def modifyFirst {α : Type} (p : α → Bool) (f : α → α) : List α → List α
  | [] => []
  | a :: l => if p a then f a :: l else a :: modifyFirst p f l

/-- Remove the first element satisfying p (models removing exactly the found
document / the found array entry). -/
def removeFirst {α : Type} (p : α → Bool) : List α → List α
  | [] => []
  | a :: l => if p a then l else a :: removeFirst p l

/-- Replace the element at an index, leaving other positions unchanged. -/
def modifyIdx {α : Type} (f : α → α) : Nat → List α → List α
  | _, [] => []
  | 0, a :: l => f a :: l
  | n + 1, a :: l => a :: modifyIdx f n l

/-- buildKey (line 336): jobNumber trimmed, opsName trimmed, rate defaulted
to 0 and rounded to 4 decimals. -/
def buildKey (jobNumber opsName : String) (rate : ℚ) : String × String × ℚ :=
  (jsTrim jobNumber, jsTrim opsName, round4 rate)

/-- The job at index ji of a bill (total, with a default out of range). -/
def billJobAt (bill : Bill) (ji : Nat) : BillJob :=
  bill.jobs.getD ji default

/-- The operation at (ji, oi) of a bill (total, with a default). -/
def billOpAt (bill : Bill) (ji oi : Nat) : BillOp :=
  (billJobAt bill ji).ops.getD oi default

/-- The composite key of the bill operation at (ji, oi). -/
def opKeyAt (bill : Bill) (ji oi : Nat) : String × String × ℚ :=
  buildKey (billJobAt bill ji).jobNumber (billOpAt bill ji oi).opsName (billOpAt bill ji oi).rate

/-- All positions of bill operations carrying a given key, in bill order
(the order billOpsMap is populated in, lines 344-351). -/
def billOpPositions (bill : Bill) (key : String × String × ℚ) : List (Nat × Nat) :=
  ((List.range bill.jobs.length).map (fun ji =>
    (List.range (billJobAt bill ji).ops.length).filterMap (fun oi =>
      if opKeyAt bill ji oi = key then some (ji, oi) else none))).flatten

/-- billOpsMap.get: Map.set keeps the last binding for a duplicated key, so
the lookup resolves to the last matching position.  The map keys are built
from fields the edit loop never mutates (jobNumber, opsName, rate), so
recomputing positions against the current bill is faithful. -/
def findBillOp (bill : Bill) (key : String × String × ℚ) : Option (Nat × Nat) :=
  (billOpPositions bill key).getLast?

/-- Replace the bill operation at (ji, oi). -/
def billSetOp (bill : Bill) (ji oi : Nat) (op : BillOp) : Bill :=
  { bill with jobs := modifyIdx (fun job => { job with ops := modifyIdx (fun _ => op) oi job.ops }) ji bill.jobs }

/-- deltasByJob accumulator: association list in insertion order of first
appearance, each group in push order. -/
abbrev DeltaAcc := List (String × List DeltaEntry)

/-- deltasByJob.get(job).push(entry), creating the group on first use. -/
def pushDelta (ds : DeltaAcc) (jn : String) (d : DeltaEntry) : DeltaAcc :=
  if ds.any (fun g => decide (g.1 = jn)) then
    ds.map (fun g => if g.1 = jn then (g.1, g.2 ++ [d]) else g)
  else ds ++ [(jn, [d])]

/-- One iteration of the changes loop (lines 357-412): validate the change,
locate the bill line, skip when the delta is zero, otherwise update the line
and record the delta. -/
def applyChange (bill : Bill) (ds : DeltaAcc) (c : Change) : Except EditError (Bill × DeltaAcc) :=
  match c.jobNumber with
  | none => .error .ChangeJobNumberRequired
  | some jn =>
    if jsTrim jn = "" then .error .ChangeJobNumberRequired
    else match c.opsName with
      | none => .error .ChangeOpsNameRequired
      | some nm =>
        if jsTrim nm = "" then .error .ChangeOpsNameRequired
        else match c.newQtyCompleted with
          | none => .error .ChangeNewQtyRequired
          | some newQty =>
            match findBillOp bill (buildKey jn nm (c.rate.getD 0)) with
            | none => .error .OperationNotFoundInBill
            | some (ji, oi) =>
              if newQty < 0 then .error .InvalidQuantity
              else
                let op := billOpAt bill ji oi
                let delta := newQty - op.qtyCompleted
                if delta = 0 then .ok (bill, ds)
                else
                  .ok (billSetOp bill ji oi { op with qtyCompleted := newQty, totalValue := op.rate * newQty },
                       pushDelta ds (billJobAt bill ji).jobNumber ⟨jsTrim op.opsName, op.rate, delta⟩)

/-- The whole changes loop. -/
def applyChanges (bill : Bill) (ds : DeltaAcc) : List Change → Except EditError (Bill × DeltaAcc)
  | [] => .ok (bill, ds)
  | c :: cs =>
    match applyChange bill ds c with
    | .error e => .error e
    | .ok (bill', ds') => applyChanges bill' ds' cs

/-- operationNameMap lookup (line 457): resolve a JobopsMaster opId to its
catalog display name, falling back to "Unknown". -/
def resolveOpName (catalog : List Operation) (opId : String) : String :=
  match catalog.find? (fun o => decide (o.id = opId)) with
  | some o => if o.opsName = "" then "Unknown" else o.opsName
  | none => "Unknown"

/-- The edit path's JobopsMaster matching predicate (lines 456-460):
resolved name equality and 2-decimal valuePerBook equality. -/
def masterOpMatches (catalog : List Operation) (d : DeltaEntry) (jop : JobOp) : Bool :=
  decide (resolveOpName catalog jop.opId = jsTrim d.opsName) &&
    decide (round2 jop.valuePerBook = round2 d.rate)

/-- One iteration of the delta loop over a JobopsMaster record
(lines 452-493): find the master op, reject if pending would go below the
epsilon, otherwise clamp and stamp, and stage the ContractorWD adjustment. -/
def adjustMasterOne (catalog : List Operation) (now : Nat) (m : JobopsMaster) (d : DeltaEntry) :
    Except EditError (JobopsMaster × WDAdj) :=
  match m.ops.find? (masterOpMatches catalog d) with
  | none => .error .OperationNotFoundInMaster
  | some jop =>
    if jop.pendingOpsQty - d.deltaQty < -(1 / 1000000) then .error .InsufficientPendingQuantity
    else
      .ok ({ m with ops := (modifyFirst (masterOpMatches catalog d)
               (fun j => { j with
                  pendingOpsQty := max 0 (min jop.totalOpsQty (jop.pendingOpsQty - d.deltaQty)),
                  lastUpdatedDate := now }) m.ops) },
           ⟨jsTrim d.opsName, jop.valuePerBook, d.deltaQty⟩)

/-- The delta loop over one JobopsMaster record, accumulating the staged
ContractorWD adjustments in push order. -/
def processDeltas (catalog : List Operation) (now : Nat) (m : JobopsMaster) (acc : List WDAdj) :
    List DeltaEntry → Except EditError (JobopsMaster × List WDAdj)
  | [] => .ok (m, acc)
  | d :: ds =>
    match adjustMasterOne catalog now m d with
    | .error e => .error e
    | .ok (m', adj) => processDeltas catalog now m' (acc ++ [adj]) ds

/-- The edit path's ContractorWD entry matching predicate (lines 517-521):
trimmed name and 2-decimal valuePerBook. -/
def wdOpMatches (adj : WDAdj) (od : WDOp) : Bool :=
  decide (jsTrim od.opsName = jsTrim adj.opsName) &&
    decide (round2 od.valuePerBook = round2 adj.valuePerBook)

/-- One iteration of the adjustments loop over a ContractorWD record
(lines 512-548). -/
def applyWdAdj (now : Nat) (wd : ContractorWD) (adj : WDAdj) : ContractorWD :=
  match wd.opsDone.find? (wdOpMatches adj) with
  | some e =>
    if 0 < adj.deltaQty then
      { wd with opsDone := (modifyFirst (wdOpMatches adj)
          (fun od => { od with opsDoneQty := od.opsDoneQty + adj.deltaQty, completionDate := now }) wd.opsDone) }
    else if adj.deltaQty < 0 then
      if e.opsDoneQty + adj.deltaQty ≤ 0 then
        { wd with opsDone := removeFirst (wdOpMatches adj) wd.opsDone }
      else
        { wd with opsDone := (modifyFirst (wdOpMatches adj)
            (fun od => { od with opsDoneQty := e.opsDoneQty + adj.deltaQty, completionDate := now }) wd.opsDone) }
    else wd
  | none =>
    if 0 < adj.deltaQty then
      { wd with opsDone := wd.opsDone ++ [⟨none, jsTrim adj.opsName, round2 adj.valuePerBook, adj.deltaQty, now⟩] }
    else wd

/-- The ContractorWD stage for one job (lines 498-560 up to the emptiness
decision): load or lazily create the record, fold the adjustments, and
return none when the record must not exist afterwards. -/
def adjustWD (cid jobNumber : String) (wd0 : Option ContractorWD) (adjs : List WDAdj) (now : Nat) :
    Option ContractorWD :=
  let wd := wd0.getD ⟨cid, jobNumber, []⟩
  let wd1 := adjs.foldl (applyWdAdj now) wd
  if wd1.opsDone.isEmpty then none else some wd1

/-- Key of a ContractorWD record. -/
def ledgerKeyMatches (cid jobNumber : String) (w : ContractorWD) : Bool :=
  decide (w.contractorId = cid) && decide (w.jobId = jobNumber)

/-- Commit the ContractorWD outcome for one job to the collection: delete
the pre-existing record when the outcome is empty (never persisting an
empty shell), update it in place when it existed, insert it when new. -/
def setLedger (ls : List ContractorWD) (cid jobNumber : String) : Option ContractorWD → List ContractorWD
  | none => removeFirst (ledgerKeyMatches cid jobNumber) ls
  | some w' =>
    if ls.any (ledgerKeyMatches cid jobNumber) then
      modifyFirst (ledgerKeyMatches cid jobNumber) (fun _ => w') ls
    else ls ++ [w']

/-- The body of the per-job loop (lines 425-561): load the JobopsMaster
record, apply the deltas to it, then adjust the ContractorWD record. -/
def processJob (catalog : List Operation) (cid : String) (now : Nat)
    (jobNumber : String) (ds : List DeltaEntry)
    (ms : List JobopsMaster) (ls : List ContractorWD) :
    Except EditError (List JobopsMaster × List ContractorWD) :=
  match ms.find? (fun m => decide (m.jobId = jobNumber)) with
  | none => .error .JobMasterNotFound
  | some m =>
    match processDeltas catalog now m [] ds with
    | .error e => .error e
    | .ok (m', adjs) =>
      let ms' := modifyFirst (fun m0 => decide (m0.jobId = jobNumber)) (fun _ => m') ms
      let wd0 := ls.find? (ledgerKeyMatches cid jobNumber)
      let ls' := setLedger ls cid jobNumber (adjustWD cid jobNumber wd0 adjs now)
      .ok (ms', ls')

/-- The per-job loop over deltasByJob (insertion order). -/
def processJobs (catalog : List Operation) (cid : String) (now : Nat) :
    DeltaAcc → List JobopsMaster × List ContractorWD →
    Except EditError (List JobopsMaster × List ContractorWD)
  | [], acc => .ok acc
  | (jobNumber, ds) :: rest, (ms, ls) =>
    match processJob catalog cid now jobNumber ds ms ls with
    | .error e => .error e
    | .ok (ms', ls') => processJobs catalog cid now rest (ms', ls')

/-- Bill cleanup after a committed edit (lines 566-576): drop operation
lines whose qtyCompleted is not positive, then drop jobs with no lines. -/
def pruneBill (b : Bill) : Bill :=
  { b with jobs :=
      ((b.jobs.map (fun job => { job with ops := job.ops.filter (fun op => decide (0 < op.qtyCompleted)) })).filter
        (fun job => !job.ops.isEmpty)) }

/-- The PUT /:billNumber/edit-qty handler (lines 300-592) as a pure
function over the addressed bill and the two ledger collections.  An error
result models the aborted transaction: no record is written. -/
def editBillQuantities (catalog : List Operation) (contractorId : Option String)
    (changes : Option (List Change)) (st : EditState) (now : Nat) :
    Except EditError (EditState × Bill) :=
  match contractorId with
  | none => .error .ContractorIdRequired
  | some cid =>
    if jsTrim cid = "" then .error .ContractorIdRequired
    else match changes with
      | none => .error .ChangesRequired
      | some cs =>
        if cs.isEmpty then .error .ChangesRequired
        else if st.bill.paymentStatus = "Yes" then .error .BillAlreadyPaid
        else match applyChanges st.bill [] cs with
          | .error e => .error e
          | .ok (bill1, deltas) =>
            if deltas.isEmpty then .ok (st, bill1)
            else match processJobs catalog cid now deltas (st.masters, st.ledgers) with
              | .error e => .error e
              | .ok (ms, ls) =>
                .ok ({ bill := pruneBill bill1, masters := ms, ledgers := ls }, pruneBill bill1)

/-- The records the DELETE /:billNumber reversal touches. -/
structure DeleteState where
  bill : Bill
  masters : List JobopsMaster
  ledgers : List ContractorWD
  deriving Repr, DecidableEq

/-- JS String(x) on a possibly-null opsId: String(null) is the literal
string "null". -/
def wdOpsIdStr : Option String → String
  | none => "null"
  | some s => s

/-- Catalog lookup by display name (Operation.findOne by opsName,
lines 685 and 712). -/
def catalogFindByName (catalog : List Operation) (nm : String) : Option Operation :=
  catalog.find? (fun o => decide (o.opsName = nm))

/-- The delete path's JobopsMaster matching predicate (line 689): opId
equality against the resolved catalog id. -/
def masterOpIdMatches (idStr : String) (jop : JobOp) : Bool :=
  decide (jop.opId = idStr)

/-- The delete path's ContractorWD matching predicate (line 716):
String(opsId) equality against the resolved catalog id. -/
def wdOpIdMatches (idStr : String) (od : WDOp) : Bool :=
  decide (wdOpsIdStr od.opsId = idStr)

/-- Body of the JobopsMaster restore loop for one bill line
(lines 683-697): resolve the name in the catalog; when both the catalog
and the master record match, raise pendingOpsQty by qtyCompleted with only
a lower clamp at 0. -/
def restoreMasterForOp (catalog : List Operation) (now : Nat) (m : JobopsMaster) (op : BillOp) :
    JobopsMaster :=
  match catalogFindByName catalog (jsTrim op.opsName) with
  | none => m
  | some oper =>
    { m with ops := (modifyFirst (masterOpIdMatches oper.id)
        (fun jop => { jop with
           pendingOpsQty := max 0 (jop.pendingOpsQty + op.qtyCompleted),
           lastUpdatedDate := now }) m.ops) }

/-- Body of the ContractorWD reversal loop for one bill line
(lines 710-730): resolve the name in the catalog, find the entry by opsId,
lower it by qtyCompleted (clamped at 0), and remove every entry with that
opsId when the result is not positive. -/
def reverseWdForOp (catalog : List Operation) (opsDone : List WDOp) (op : BillOp) : List WDOp :=
  match catalogFindByName catalog (jsTrim op.opsName) with
  | none => opsDone
  | some oper =>
    match opsDone.find? (wdOpIdMatches oper.id) with
    | none => opsDone
    | some e =>
      let newQty := max 0 (e.opsDoneQty - op.qtyCompleted)
      let opsDone1 := modifyFirst (wdOpIdMatches oper.id) (fun od => { od with opsDoneQty := newQty }) opsDone
      if newQty ≤ 0 then opsDone1.filter (fun od => !(wdOpIdMatches oper.id od)) else opsDone1

/-- Per-job body of the delete loop (lines 679-739): restore the job's
JobopsMaster record, then rewind the contractor's work-done record,
deleting it when its entry list becomes empty. -/
def deleteJobStep (catalog : List Operation) (cid : String) (now : Nat)
    (acc : List JobopsMaster × List ContractorWD) (job : BillJob) :
    List JobopsMaster × List ContractorWD :=
  let ms := acc.1
  let ls := acc.2
  let ms' :=
    match ms.find? (fun m => decide (m.jobId = job.jobNumber)) with
    | none => ms
    | some m =>
      let m' := job.ops.foldl (restoreMasterForOp catalog now) m
      modifyFirst (fun m0 => decide (m0.jobId = job.jobNumber)) (fun _ => m') ms
  let ls' :=
    match ls.find? (ledgerKeyMatches cid job.jobNumber) with
    | none => ls
    | some w =>
      let w' := { w with opsDone := job.ops.foldl (reverseWdForOp catalog) w.opsDone }
      if w'.opsDone.isEmpty then removeFirst (ledgerKeyMatches cid job.jobNumber) ls
      else modifyFirst (ledgerKeyMatches cid job.jobNumber) (fun _ => w') ls
  (ms', ls')

/-- The DELETE /:billNumber reversal (lines 655-750) after the bill and the
contractor id have been resolved: per-job, per-line best-effort restore,
then the soft-delete flag. -/
def reverseBillOnDelete (catalog : List Operation) (cid : String) (st : DeleteState) (now : Nat) :
    DeleteState :=
  let acc := st.bill.jobs.foldl (deleteJobStep catalog cid now) (st.masters, st.ledgers)
  { bill := { st.bill with isDeleted := 1 }, masters := acc.1, ledgers := acc.2 }

/-- Decidable equality of handler results, so that concrete runs can be
checked by the kernel. -/
instance {ε α : Type} [DecidableEq ε] [DecidableEq α] : DecidableEq (Except ε α) := fun x y =>
  match x, y with
  | .error e, .error e' =>
    if h : e = e' then isTrue (by rw [h]) else isFalse (fun hh => by cases hh; exact h rfl)
  | .ok a, .ok b =>
    if h : a = b then isTrue (by rw [h]) else isFalse (fun hh => by cases hh; exact h rfl)
  | .error _, .ok _ => isFalse (fun hh => by cases hh)
  | .ok _, .error _ => isFalse (fun hh => by cases hh)

/-- The JobopsMaster data-model invariant: pending work lies between 0 and
the total for every operation of the record. -/
def masterInvariant (m : JobopsMaster) : Prop :=
  ∀ op ∈ m.ops, 0 ≤ op.pendingOpsQty ∧ op.pendingOpsQty ≤ op.totalOpsQty

instance (m : JobopsMaster) : Decidable (masterInvariant m) := by
  unfold masterInvariant
  infer_instance

/-- The pending quantity of the master operation an edit-path delta entry
resolves to (0 when no operation matches). -/
def pendingFor (catalog : List Operation) (d : DeltaEntry) (m : JobopsMaster) : ℚ :=
  ((m.ops.find? (masterOpMatches catalog d)).map JobOp.pendingOpsQty).getD 0

/-- A change request that passes every per-change validation of the edit
path and whose requested quantity equals the current quantity of the bill
line it resolves to (so its computed delta is 0). -/
def changeNoop (bill : Bill) (c : Change) : Bool :=
  match c.jobNumber, c.opsName, c.newQtyCompleted with
  | some jn, some nm, some nq =>
    !(decide (jsTrim jn = "")) && !(decide (jsTrim nm = "")) &&
    (match findBillOp bill (buildKey jn nm (c.rate.getD 0)) with
     | some (ji, oi) => !(decide (nq < 0)) && decide ((billOpAt bill ji oi).qtyCompleted = nq)
     | none => false)
  | _, _, _ => false

/-! ### Concrete sample records (used by witnesses and counterexamples) -/

/-- Sample operation catalog: one operation named Drilling. -/
def catalog0 : List Operation := [⟨"op1", "Drilling"⟩]

/-- Sample unpaid bill: one job J1 with a Drilling line, 5 completed at
rate 10. -/
def bill0 : Bill := ⟨"00000001", "ACME", "No", 0, [⟨"J1", "", "", [⟨"Drilling", 10, 10, 5, 50⟩]⟩]⟩

/-- Sample JobopsMaster record for J1: Drilling has 5 of 10 pending. -/
def master0 : JobopsMaster := ⟨"J1", [⟨"op1", 10, 10, 5, 0⟩]⟩

/-- Sample pre-edit state: bill0, master0, no contractor ledger yet. -/
def st0 : EditState := ⟨bill0, [master0], []⟩

/-- Sample change: raise Drilling on J1 to 8 completed (delta +3). -/
def chg0 : Change := ⟨some "J1", some "Drilling", some 10, some 8⟩

/-- The bill produced by applying chg0 to bill0. -/
def bill1 : Bill := ⟨"00000001", "ACME", "No", 0, [⟨"J1", "", "", [⟨"Drilling", 10, 10, 8, 80⟩]⟩]⟩

/-- The ledger entry the edit path creates for chg0: opsId is null. -/
def entry1 : WDOp := ⟨none, "Drilling", 10, 3, 7⟩

/-- The ledger record created by the chg0 edit. -/
def wd1 : ContractorWD := ⟨"C0001", "J1", [entry1]⟩

/-- The state after running the chg0 edit against st0 at tick 7. -/
def st1 : EditState := ⟨bill1, [⟨"J1", [⟨"op1", 10, 10, 2, 7⟩]⟩], [wd1]⟩

/-- st0 with the bill already marked paid. -/
def stPaid : EditState := ⟨⟨"00000001", "ACME", "Yes", 0, bill0.jobs⟩, [master0], []⟩

/-- Sample change: equal to the current quantity (delta 0). -/
def chgNoop : Change := ⟨some "J1", some "Drilling", some 10, some 5⟩

/-- Sample change: drive Drilling on J1 down to 0 completed (delta -5). -/
def chgZero : Change := ⟨some "J1", some "Drilling", some 10, some 0⟩

/-- A pre-edit state whose ledger already holds 5 Drilling for C0001/J1
(entry created at bill creation, with a real opsId). -/
def stLedger : EditState := ⟨bill0, [master0], [⟨"C0001", "J1", [⟨some "op1", "Drilling", 10, 5, 0⟩]⟩]⟩

/-- A two-operation catalog. -/
def catalog2 : List Operation := [⟨"op1", "Drilling"⟩, ⟨"op2", "Cutting"⟩]

/-- A bill whose job J1 carries two lines (Drilling and Cutting). -/
def bill2 : Bill :=
  ⟨"00000002", "ACME", "No", 0,
   [⟨"J1", "", "", [⟨"Drilling", 10, 10, 5, 50⟩, ⟨"Cutting", 4, 7, 2, 14⟩]⟩]⟩

/-- The JobopsMaster record for bill2's job. -/
def master2 : JobopsMaster := ⟨"J1", [⟨"op1", 10, 10, 5, 0⟩, ⟨"op2", 7, 8, 6, 0⟩]⟩

/-- Pre-edit state around bill2. -/
def st2 : EditState := ⟨bill2, [master2], []⟩

/-- The bill2 state right after the changes loop set Drilling to 0 and
before pruning. -/
def bill2mid : Bill :=
  ⟨"00000002", "ACME", "No", 0,
   [⟨"J1", "", "", [⟨"Drilling", 10, 10, 0, 0⟩, ⟨"Cutting", 4, 7, 2, 14⟩]⟩]⟩

/-- The bill2 result after pruning the zeroed Drilling line. -/
def bill2res : Bill :=
  ⟨"00000002", "ACME", "No", 0, [⟨"J1", "", "", [⟨"Cutting", 4, 7, 2, 14⟩]⟩]⟩

/-- The state after driving bill2's Drilling line to 0 at tick 7. -/
def st2res : EditState :=
  ⟨bill2res, [⟨"J1", [⟨"op1", 10, 10, 10, 7⟩, ⟨"op2", 7, 8, 6, 0⟩]⟩], []⟩

/-! ### Helper lemmas about the list primitives -/

theorem mem_modifyFirst {α : Type} {p : α → Bool} {f : α → α} {l : List α} {a : α}
    (h : a ∈ modifyFirst p f l) : a ∈ l ∨ ∃ b, l.find? p = some b ∧ a = f b := by
  induction l with
  | nil => simp [modifyFirst] at h
  | cons x xs ih =>
    by_cases hx : p x
    · simp [modifyFirst, hx] at h
      rcases h with h | h
      · exact Or.inr ⟨x, by simp [List.find?_cons_of_pos _ hx], h⟩
      · exact Or.inl (List.mem_cons_of_mem _ h)
    · simp [modifyFirst, hx] at h
      rcases h with h | h
      · exact Or.inl (by simp [h])
      · rcases ih h with h' | ⟨b, hb, hab⟩
        · exact Or.inl (List.mem_cons_of_mem _ h')
        · exact Or.inr ⟨b, by simp [List.find?_cons_of_neg _ hx, hb], hab⟩

theorem mem_removeFirst {α : Type} {p : α → Bool} {l : List α} {a : α}
    (h : a ∈ removeFirst p l) : a ∈ l := by
  induction l with
  | nil => simp [removeFirst] at h
  | cons x xs ih =>
    by_cases hx : p x
    · simp [removeFirst, hx] at h
      exact List.mem_cons_of_mem _ h
    · simp [removeFirst, hx] at h
      rcases h with h | h
      · simp [h]
      · exact List.mem_cons_of_mem _ (ih h)

theorem find?_modifyFirst {α : Type} {p : α → Bool} {f : α → α} (hf : ∀ a, p (f a) = p a)
    (l : List α) : (modifyFirst p f l).find? p = (l.find? p).map f := by
  induction l with
  | nil => simp [modifyFirst]
  | cons x xs ih =>
    by_cases hx : p x
    · simp [modifyFirst, hx, List.find?_cons_of_pos, hf x, List.find?_cons_of_pos _ hx]
    · have : p (f x) = false := by simp [hf x, hx]
      simp [modifyFirst, hx, List.find?_cons_of_neg _ hx, ih]

theorem find?_filter_not {α : Type} (p : α → Bool) (l : List α) :
    (l.filter (fun a => !(p a))).find? p = none := by
  induction l with
  | nil => simp
  | cons x xs ih =>
    by_cases hx : p x
    · simp [List.filter_cons, hx, ih]
    · simp [List.filter_cons, hx, List.find?_cons_of_neg _ hx, ih]

theorem getLast?_mem {α : Type} : ∀ {l : List α} {a : α}, l.getLast? = some a → a ∈ l := by
  intro l
  induction l with
  | nil => intro a h; simp at h
  | cons x xs ih =>
    intro a h
    cases xs with
    | nil => simp [List.getLast?_singleton] at h; simp [h]
    | cons y ys =>
      rw [List.getLast?_cons_cons] at h
      exact List.mem_cons_of_mem _ (ih h)

theorem getD_modifyIdx_self {α : Type} (f : α → α) (d : α) :
    ∀ (l : List α) (n : Nat), n < l.length → (modifyIdx f n l).getD n d = f (l.getD n d) := by
  intro l
  induction l with
  | nil => intro n h; simp at h
  | cons x xs ih =>
    intro n h
    cases n with
    | zero => simp [modifyIdx]
    | succ m =>
      simp only [modifyIdx, List.getD_cons_succ]
      exact ih m (by simpa using h)

/-! ### Inversion of a successful edit -/

theorem editBillQuantities_ok_inv {catalog : List Operation} {cid? : Option String}
    {cs? : Option (List Change)} {st : EditState} {now : Nat} {st' : EditState} {resp : Bill}
    (h : editBillQuantities catalog cid? cs? st now = .ok (st', resp)) :
    ∃ cid cs bill1 deltas, cid? = some cid ∧ cs? = some cs ∧
      applyChanges st.bill [] cs = .ok (bill1, deltas) ∧
      ((deltas = [] ∧ st' = st ∧ resp = bill1) ∨
       (deltas ≠ [] ∧ ∃ ms ls,
          processJobs catalog cid now deltas (st.masters, st.ledgers) = .ok (ms, ls) ∧
          st' = { bill := pruneBill bill1, masters := ms, ledgers := ls } ∧
          resp = pruneBill bill1)) := by
  unfold editBillQuantities at h
  split at h
  · simp at h
  next cid =>
    split at h
    · simp at h
    split at h
    · simp at h
    next cs =>
      split at h
      · simp at h
      next h2 =>
        split at h
        · simp at h
        next h3 =>
          split at h
          next e hac => simp at h
          next bill1 deltas hac =>
            split at h
            next h4 =>
              simp only [Except.ok.injEq, Prod.mk.injEq] at h
              exact ⟨cid, cs, bill1, deltas, rfl, rfl, hac,
                Or.inl ⟨List.isEmpty_iff.mp h4, h.1.symm, h.2.symm⟩⟩
            next h4 =>
              split at h
              next e hpj => simp at h
              next ms ls hpj =>
                simp only [Except.ok.injEq, Prod.mk.injEq] at h
                exact ⟨cid, cs, bill1, deltas, rfl, rfl, hac,
                  Or.inr ⟨fun hnil => h4 (by simp [hnil]), ms, ls, hpj, h.1.symm, h.2.symm⟩⟩

/-! ### The pending-quantity invariant (claim C5 machinery) -/

theorem adjustMasterOne_ok_invariant {catalog : List Operation} {now : Nat}
    {m m' : JobopsMaster} {d : DeltaEntry} {adj : WDAdj}
    (h : adjustMasterOne catalog now m d = .ok (m', adj)) (hm : masterInvariant m) :
    masterInvariant m' := by
  unfold adjustMasterOne at h
  split at h
  · simp at h
  next jop hf =>
    split at h
    · simp at h
    next hlt =>
      simp only [Except.ok.injEq, Prod.mk.injEq] at h
      intro op hop
      rw [← h.1] at hop
      simp only at hop
      rcases mem_modifyFirst hop with hmem | ⟨b, hb, rfl⟩
      · exact hm op hmem
      · rw [hf] at hb
        cases hb
        have hj := hm jop (List.mem_of_find?_eq_some hf)
        have h0t : (0 : ℚ) ≤ jop.totalOpsQty := le_trans hj.1 hj.2
        constructor
        · exact le_max_left 0 _
        · exact max_le h0t (min_le_left jop.totalOpsQty (jop.pendingOpsQty - d.deltaQty))

theorem processDeltas_ok_invariant {catalog : List Operation} {now : Nat} :
    ∀ {ds : List DeltaEntry} {m m' : JobopsMaster} {acc adjs : List WDAdj},
      processDeltas catalog now m acc ds = .ok (m', adjs) → masterInvariant m →
      masterInvariant m' := by
  intro ds
  induction ds with
  | nil =>
    intro m m' acc adjs h hm
    simp only [processDeltas, Except.ok.injEq, Prod.mk.injEq] at h
    rw [← h.1]; exact hm
  | cons d ds ih =>
    intro m m' acc adjs h hm
    unfold processDeltas at h
    split at h
    · simp at h
    next m1 adj ha =>
      exact ih h (adjustMasterOne_ok_invariant ha hm)

theorem processJob_ok_invariant {catalog : List Operation} {cid : String} {now : Nat}
    {jobNumber : String} {ds : List DeltaEntry} {ms ms' : List JobopsMaster}
    {ls ls' : List ContractorWD}
    (h : processJob catalog cid now jobNumber ds ms ls = .ok (ms', ls'))
    (hms : ∀ m ∈ ms, masterInvariant m) :
    ∀ m ∈ ms', masterInvariant m := by
  unfold processJob at h
  split at h
  · simp at h
  next m0 hf =>
    split at h
    · simp at h
    next m1 adjs hp =>
      simp only [Except.ok.injEq, Prod.mk.injEq] at h
      intro m hm
      rw [← h.1] at hm
      rcases mem_modifyFirst hm with hmem | ⟨b, _, rfl⟩
      · exact hms m hmem
      · exact processDeltas_ok_invariant hp (hms m0 (List.mem_of_find?_eq_some hf))

theorem processJobs_ok_invariant {catalog : List Operation} {cid : String} {now : Nat} :
    ∀ {deltas : DeltaAcc} {ms ms' : List JobopsMaster} {ls ls' : List ContractorWD},
      processJobs catalog cid now deltas (ms, ls) = .ok (ms', ls') →
      (∀ m ∈ ms, masterInvariant m) → ∀ m ∈ ms', masterInvariant m := by
  intro deltas
  induction deltas with
  | nil =>
    intro ms ms' ls ls' h hms
    simp only [processJobs, Except.ok.injEq, Prod.mk.injEq] at h
    rw [← h.1]; exact hms
  | cons g rest ih =>
    intro ms ms' ls ls' h hms
    rcases g with ⟨jobNumber, ds⟩
    unfold processJobs at h
    split at h
    · simp at h
    next ms1 ls1 hj =>
      exact ih h (processJob_ok_invariant hj hms)

/-! ### The non-empty-ledger invariant (claim C6 machinery) -/

theorem adjustWD_some_nonempty {cid jobNumber : String} {wd0 : Option ContractorWD}
    {adjs : List WDAdj} {now : Nat} {w : ContractorWD}
    (h : adjustWD cid jobNumber wd0 adjs now = some w) : w.opsDone ≠ [] := by
  simp only [adjustWD] at h
  split at h
  · simp at h
  next hne =>
    cases h
    intro hnil
    exact hne (by simp [hnil])

theorem setLedger_nonempty {ls : List ContractorWD} {cid jobNumber : String}
    {wopt : Option ContractorWD}
    (hls : ∀ w ∈ ls, w.opsDone ≠ []) (hw : ∀ w, wopt = some w → w.opsDone ≠ []) :
    ∀ w ∈ setLedger ls cid jobNumber wopt, w.opsDone ≠ [] := by
  cases wopt with
  | none =>
    intro w hmem
    exact hls w (mem_removeFirst hmem)
  | some w' =>
    intro w hmem
    simp only [setLedger] at hmem
    split at hmem
    · rcases mem_modifyFirst hmem with hm | ⟨b, _, rfl⟩
      · exact hls w hm
      · exact hw _ rfl
    · rcases List.mem_append.mp hmem with hm | hm
      · exact hls w hm
      · rw [List.mem_singleton.mp hm]
        exact hw _ rfl

theorem processJob_ok_ledgers {catalog : List Operation} {cid : String} {now : Nat}
    {jobNumber : String} {ds : List DeltaEntry} {ms ms' : List JobopsMaster}
    {ls ls' : List ContractorWD}
    (h : processJob catalog cid now jobNumber ds ms ls = .ok (ms', ls'))
    (hls : ∀ w ∈ ls, w.opsDone ≠ []) :
    ∀ w ∈ ls', w.opsDone ≠ [] := by
  unfold processJob at h
  split at h
  · simp at h
  next m0 hf =>
    split at h
    · simp at h
    next m1 adjs hp =>
      simp only [Except.ok.injEq, Prod.mk.injEq] at h
      rw [← h.2]
      exact setLedger_nonempty hls (fun w hw => adjustWD_some_nonempty hw)

theorem processJobs_ok_ledgers {catalog : List Operation} {cid : String} {now : Nat} :
    ∀ {deltas : DeltaAcc} {ms ms' : List JobopsMaster} {ls ls' : List ContractorWD},
      processJobs catalog cid now deltas (ms, ls) = .ok (ms', ls') →
      (∀ w ∈ ls, w.opsDone ≠ []) → ∀ w ∈ ls', w.opsDone ≠ [] := by
  intro deltas
  induction deltas with
  | nil =>
    intro ms ms' ls ls' h hls
    simp only [processJobs, Except.ok.injEq, Prod.mk.injEq] at h
    rw [← h.2]; exact hls
  | cons g rest ih =>
    intro ms ms' ls ls' h hls
    rcases g with ⟨jobNumber, ds⟩
    unfold processJobs at h
    split at h
    · simp at h
    next ms1 ls1 hj =>
      exact ih h (processJob_ok_ledgers hj hls)

theorem deleteJobStep_ledgers {catalog : List Operation} {cid : String} {now : Nat}
    {ms : List JobopsMaster} {ls : List ContractorWD} {job : BillJob}
    (hls : ∀ w ∈ ls, w.opsDone ≠ []) :
    ∀ w ∈ (deleteJobStep catalog cid now (ms, ls) job).2, w.opsDone ≠ [] := by
  intro w hmem
  simp only [deleteJobStep] at hmem
  split at hmem
  · exact hls w hmem
  next w0 hf =>
    split at hmem
    · exact hls w (mem_removeFirst hmem)
    next hne =>
      rcases mem_modifyFirst hmem with hm | ⟨b, _, rfl⟩
      · exact hls w hm
      · intro hnil
        simp only at hnil
        exact hne (by simp [hnil])

theorem reverseBillOnDelete_ledgers {catalog : List Operation} {cid : String} {now : Nat} :
    ∀ {jobs : List BillJob} {ms : List JobopsMaster} {ls : List ContractorWD},
      (∀ w ∈ ls, w.opsDone ≠ []) →
      ∀ w ∈ (jobs.foldl (deleteJobStep catalog cid now) (ms, ls)).2, w.opsDone ≠ [] := by
  intro jobs
  induction jobs with
  | nil => intro ms ls hls; simpa using hls
  | cons j rest ih =>
    intro ms ls hls
    have hstep := @deleteJobStep_ledgers catalog cid now ms ls j hls
    rcases hd : deleteJobStep catalog cid now (ms, ls) j with ⟨ms1, ls1⟩
    rw [hd] at hstep
    simpa [List.foldl_cons, hd] using @ih ms1 ls1 hstep

/-! ### Structure of a pruned bill (claim C9 machinery) -/

theorem pruneBill_clean (b : Bill) :
    ∀ job ∈ (pruneBill b).jobs, job.ops ≠ [] ∧ ∀ op ∈ job.ops, 0 < op.qtyCompleted := by
  intro job hjob
  simp only [pruneBill] at hjob
  rcases List.mem_filter.mp hjob with ⟨hmap, hne⟩
  constructor
  · intro hnil
    rw [hnil] at hne
    simp at hne
  · rcases List.mem_map.mp hmap with ⟨j0, _, rfl⟩
    intro op hop
    simp only at hop
    rcases List.mem_filter.mp hop with ⟨_, hq⟩
    exact of_decide_eq_true hq

/-! ### No-op change sets (claim C7 machinery) -/

theorem applyChange_noop {bill : Bill} {ds : DeltaAcc} {c : Change}
    (h : changeNoop bill c = true) : applyChange bill ds c = .ok (bill, ds) := by
  rcases c with ⟨jn?, nm?, rate?, nq?⟩
  cases jn? with
  | none => simp [changeNoop] at h
  | some jn =>
    cases nm? with
    | none => simp [changeNoop] at h
    | some nm =>
      cases nq? with
      | none => simp [changeNoop] at h
      | some nq =>
        simp only [changeNoop, Bool.and_eq_true, Bool.not_eq_true', decide_eq_false_iff_not] at h
        obtain ⟨⟨hjn, hnm⟩, hrest⟩ := h
        rcases hf : findBillOp bill (buildKey jn nm (rate?.getD 0)) with _ | ⟨ji, oi⟩ <;>
          rw [hf] at hrest
        · simp at hrest
        · simp only [Bool.and_eq_true, Bool.not_eq_true', decide_eq_false_iff_not,
            decide_eq_true_eq] at hrest
          obtain ⟨hnq, hqty⟩ := hrest
          simp only [applyChange, hf]
          rw [if_neg hjn, if_neg hnm, if_neg hnq,
            if_pos (show nq - (billOpAt bill ji oi).qtyCompleted = 0 by rw [← hqty]; ring)]

theorem applyChanges_noop {bill : Bill} {ds : DeltaAcc} {cs : List Change}
    (h : ∀ c ∈ cs, changeNoop bill c = true) : applyChanges bill ds cs = .ok (bill, ds) := by
  induction cs with
  | nil => rfl
  | cons c cs ih =>
    unfold applyChanges
    rw [applyChange_noop (h c (by simp))]
    exact ih (fun c hc => h c (List.mem_cons_of_mem _ hc))

/-! ### Claim theorems -/

/-- C7: a change set in which every change passes validation and requests
exactly the current completed quantity of the line it resolves to is a
successful no-op: the handler returns the unchanged state together with the
unchanged bill, performing no store write. -/
theorem noopChangeSetIsNoWrite {catalog : List Operation} {cid : String} {cs : List Change}
    {st : EditState} {now : Nat}
    (hcs : cs ≠ []) (hall : ∀ c ∈ cs, changeNoop st.bill c = true)
    (hcid : jsTrim cid ≠ "") (hpaid : st.bill.paymentStatus ≠ "Yes") :
    editBillQuantities catalog (some cid) (some cs) st now = .ok (st, st.bill) := by
  have h2 : ¬(cs.isEmpty = true) := fun hh => hcs (List.isEmpty_iff.mp hh)
  simp only [editBillQuantities]
  rw [if_neg hcid, if_neg h2, if_neg hpaid, applyChanges_noop hall]
  rfl

/-- C7 witness: a one-element change set requesting the current quantity
(5) leaves state st0 untouched and returns bill0. -/
theorem noopChangeSetIsNoWrite_witness :
    ([chgNoop] : List Change) ≠ [] ∧ (∀ c ∈ [chgNoop], changeNoop bill0 c = true) ∧
    jsTrim "C0001" ≠ "" ∧ bill0.paymentStatus ≠ "Yes" ∧
    editBillQuantities catalog0 (some "C0001") (some [chgNoop]) st0 7 = .ok (st0, bill0) :=
  ⟨by decide, by decide, by decide, by decide,
   noopChangeSetIsNoWrite (by decide) (by decide) (by decide) (by decide)⟩

/-- C10: with a well-formed contractorId, an absent (non-array) changes
field and an empty changes array are both rejected with the
changes-required validation error, before the paid-bill check and with no
state change (error results model the aborted transaction). -/
theorem emptyChangesRejected {catalog : List Operation} {cid : String} {st : EditState}
    {now : Nat} (hcid : jsTrim cid ≠ "") :
    editBillQuantities catalog (some cid) none st now = .error .ChangesRequired ∧
    editBillQuantities catalog (some cid) (some []) st now = .error .ChangesRequired := by
  constructor
  · simp only [editBillQuantities]
    rw [if_neg hcid]
  · simp only [editBillQuantities]
    rw [if_neg hcid]
    rfl

/-- C10 witness: both rejections at the concrete paid state stPaid. -/
theorem emptyChangesRejected_witness :
    jsTrim "C0001" ≠ "" ∧
    editBillQuantities catalog0 (some "C0001") none stPaid 0 = .error .ChangesRequired ∧
    editBillQuantities catalog0 (some "C0001") (some []) stPaid 0 = .error .ChangesRequired :=
  ⟨by decide, (emptyChangesRejected (by decide)).1, (emptyChangesRejected (by decide)).2⟩

/-- C1 counterexample: on a bill whose paymentStatus is Yes, a missing
contractorId is rejected with the contractorId validation error and a
missing changes array with the changes validation error — not with
BillAlreadyPaid — so the paid-state rejection does not precede every other
validation. -/
theorem paidBillNotCheckedFirst_cx :
    editBillQuantities catalog0 none (some [chg0]) stPaid 0 = .error .ContractorIdRequired ∧
    editBillQuantities catalog0 (some "C0001") none stPaid 0 = .error .ChangesRequired ∧
    (Except.error .ContractorIdRequired : Except EditError (EditState × Bill)) ≠
      .error .BillAlreadyPaid := by
  refine ⟨by decide, by decide, by decide⟩

/-- C1 amended: once contractorId is present and non-blank and changes is a
non-empty array, a bill with paymentStatus Yes is rejected with
BillAlreadyPaid before any per-change validation (the change list is
arbitrary), and the error models the aborted transaction (no state
change). -/
theorem paidBillRejectedBeforeChangeValidation {catalog : List Operation} {cid : String}
    {cs : List Change} {st : EditState} {now : Nat}
    (hcid : jsTrim cid ≠ "") (hcs : cs ≠ []) (hpaid : st.bill.paymentStatus = "Yes") :
    editBillQuantities catalog (some cid) (some cs) st now = .error .BillAlreadyPaid := by
  have h2 : ¬(cs.isEmpty = true) := fun hh => hcs (List.isEmpty_iff.mp hh)
  simp only [editBillQuantities]
  rw [if_neg hcid, if_neg h2, if_pos hpaid]

/-- C1 amended witness: the paid bill stPaid is rejected with
BillAlreadyPaid even though the single change is malformed (all fields
missing), showing precedence over per-change validation. -/
theorem paidBillRejectedBeforeChangeValidation_witness :
    jsTrim "C0001" ≠ "" ∧ ([(⟨none, none, none, none⟩ : Change)] : List Change) ≠ [] ∧
    stPaid.bill.paymentStatus = "Yes" ∧
    editBillQuantities catalog0 (some "C0001") (some [⟨none, none, none, none⟩]) stPaid 0 =
      .error .BillAlreadyPaid :=
  ⟨by decide, by decide, by decide,
   paidBillRejectedBeforeChangeValidation (by decide) (by decide) (by decide)⟩

/-- C5: a successful edit preserves the pending-quantity invariant: when
every JobopsMaster record satisfies 0 ≤ pendingOpsQty ≤ totalOpsQty before
the edit, every record of the resulting state does too — touched
operations because the stored value is clamped into [0, totalOpsQty],
untouched ones because they are carried over unchanged. -/
theorem editPreservesPendingInvariant {catalog : List Operation} {cid? : Option String}
    {cs? : Option (List Change)} {st : EditState} {now : Nat} {st' : EditState} {resp : Bill}
    (h : editBillQuantities catalog cid? cs? st now = .ok (st', resp))
    (hms : ∀ m ∈ st.masters, masterInvariant m) :
    ∀ m ∈ st'.masters, masterInvariant m := by
  rcases editBillQuantities_ok_inv h with ⟨cid, cs, bill1, deltas, _, _, _, hcase⟩
  rcases hcase with ⟨_, rfl, _⟩ | ⟨_, ms, ls, hpj, rfl, _⟩
  · exact hms
  · exact processJobs_ok_invariant hpj hms

/-- C5 witness: the chg0 edit from st0 yields st1, whose master record
still satisfies the invariant. -/
theorem editPreservesPendingInvariant_witness :
    editBillQuantities catalog0 (some "C0001") (some [chg0]) st0 7 = .ok (st1, bill1) ∧
    (∀ m ∈ st0.masters, masterInvariant m) ∧
    ∀ m ∈ st1.masters, masterInvariant m :=
  ⟨by decide, by decide,
   @editPreservesPendingInvariant catalog0 (some "C0001") (some [chg0]) st0 7 st1 bill1
     (by decide) (by decide)⟩

/-- C6: after either engine operation the ledger store never holds a
record with an empty opsDone list: a successful edit and a reversal both
preserve the property that every ContractorWD record has at least one
entry (records that become empty are deleted, fresh empty records are
never saved). -/
theorem ledgerNeverEmpty :
    (∀ (catalog : List Operation) (cid? : Option String) (cs? : Option (List Change))
       (st : EditState) (now : Nat) (st' : EditState) (resp : Bill),
       editBillQuantities catalog cid? cs? st now = .ok (st', resp) →
       (∀ w ∈ st.ledgers, w.opsDone ≠ []) → ∀ w ∈ st'.ledgers, w.opsDone ≠ []) ∧
    (∀ (catalog : List Operation) (cid : String) (st : DeleteState) (now : Nat),
       (∀ w ∈ st.ledgers, w.opsDone ≠ []) →
       ∀ w ∈ (reverseBillOnDelete catalog cid st now).ledgers, w.opsDone ≠ []) := by
  constructor
  · intro catalog cid? cs? st now st' resp h hls
    rcases editBillQuantities_ok_inv h with ⟨cid, cs, bill1, deltas, _, _, _, hcase⟩
    rcases hcase with ⟨_, rfl, _⟩ | ⟨_, ms, ls, hpj, rfl, _⟩
    · exact hls
    · exact processJobs_ok_ledgers hpj hls
  · intro catalog cid st now hls
    simp only [reverseBillOnDelete]
    exact reverseBillOnDelete_ledgers hls

/-- C6 witness: both parts applied at concrete states — the chg0 edit
creates st1's single-entry ledger, and the subsequent reversal leaves no
empty record either. -/
theorem ledgerNeverEmpty_witness :
    (∀ w ∈ st1.ledgers, w.opsDone ≠ []) ∧
    (∀ w ∈ (reverseBillOnDelete catalog0 "C0001" ⟨bill1, st1.masters, st1.ledgers⟩ 9).ledgers,
       w.opsDone ≠ []) :=
  ⟨ledgerNeverEmpty.1 catalog0 (some "C0001") (some [chg0]) st0 7 st1 bill1
     (by decide) (by decide),
   ledgerNeverEmpty.2 catalog0 "C0001" ⟨bill1, st1.masters, st1.ledgers⟩ 9 (by decide)⟩

/-- C9: a successful edit whose changes loop recorded at least one nonzero
delta commits a pruned bill: every remaining operation line has a strictly
positive qtyCompleted (in particular none equal to 0) and no job is left
with an empty line list. -/
theorem editPrunesZeroLines {catalog : List Operation} {cid? : Option String}
    {cs : List Change} {st : EditState} {now : Nat} {st' : EditState} {resp : Bill}
    {bill1 : Bill} {deltas : DeltaAcc}
    (h : editBillQuantities catalog cid? (some cs) st now = .ok (st', resp))
    (hac : applyChanges st.bill [] cs = .ok (bill1, deltas))
    (hne : deltas ≠ []) :
    ∀ job ∈ st'.bill.jobs, job.ops ≠ [] ∧ ∀ op ∈ job.ops, 0 < op.qtyCompleted := by
  rcases editBillQuantities_ok_inv h with ⟨cid, cs0, bill1', deltas', hcid, hcs0, hac', hcase⟩
  injection hcs0 with hcs0e
  subst hcs0e
  rw [hac] at hac'
  injection hac' with hpair
  injection hpair with hb hd
  subst hb
  subst hd
  rcases hcase with ⟨hnil, _, _⟩ | ⟨_, ms, ls, hpj, rfl, _⟩
  · exact absurd hnil hne
  · exact pruneBill_clean bill1

/-- C9 witness: driving bill2's Drilling line to 0 removes that line and
keeps the job with its positive Cutting line. -/
theorem editPrunesZeroLines_witness :
    editBillQuantities catalog2 (some "C0001") (some [chgZero]) st2 7 = .ok (st2res, bill2res) ∧
    applyChanges st2.bill [] [chgZero] = .ok (bill2mid, [("J1", [⟨"Drilling", 10, -5⟩])]) ∧
    ([("J1", [(⟨"Drilling", 10, -5⟩ : DeltaEntry)])] : DeltaAcc) ≠ [] ∧
    ∀ job ∈ st2res.bill.jobs, job.ops ≠ [] ∧ ∀ op ∈ job.ops, 0 < op.qtyCompleted :=
  ⟨by decide, by decide, by decide,
   @editPrunesZeroLines catalog2 (some "C0001") [chgZero] st2 7 st2res bill2res bill2mid
     [("J1", [⟨"Drilling", 10, -5⟩])] (by decide) (by decide) (by decide)⟩

/-! ### Locating bill lines (claim C4 machinery) -/

theorem billOpPositions_mem {bill : Bill} {key : String × String × ℚ} {ji oi : Nat}
    (h : (ji, oi) ∈ billOpPositions bill key) :
    ji < bill.jobs.length ∧ oi < (billJobAt bill ji).ops.length := by
  simp only [billOpPositions, List.mem_flatten, List.mem_map] at h
  obtain ⟨l, ⟨ji', hji', rfl⟩, hmem⟩ := h
  rw [List.mem_filterMap] at hmem
  obtain ⟨oi', hoi', hsome⟩ := hmem
  by_cases hc : opKeyAt bill ji' oi' = key
  · rw [if_pos hc] at hsome
    injection hsome with hpair
    have h1 : ji' = ji := congrArg Prod.fst hpair
    have h2 : oi' = oi := congrArg Prod.snd hpair
    subst h1
    subst h2
    exact ⟨List.mem_range.mp hji', List.mem_range.mp hoi'⟩
  · rw [if_neg hc] at hsome
    simp at hsome

theorem findBillOp_bounds {bill : Bill} {key : String × String × ℚ} {ji oi : Nat}
    (h : findBillOp bill key = some (ji, oi)) :
    ji < bill.jobs.length ∧ oi < (billJobAt bill ji).ops.length :=
  billOpPositions_mem (getLast?_mem h)

theorem billOpAt_billSetOp {bill : Bill} {ji oi : Nat} {op : BillOp}
    (hji : ji < bill.jobs.length) (hoi : oi < (billJobAt bill ji).ops.length) :
    billOpAt (billSetOp bill ji oi op) ji oi = op := by
  have h1 : billJobAt (billSetOp bill ji oi op) ji =
      { billJobAt bill ji with ops := modifyIdx (fun _ => op) oi (billJobAt bill ji).ops } := by
    unfold billJobAt billSetOp
    simp only
    rw [getD_modifyIdx_self _ _ bill.jobs ji hji]
  unfold billOpAt
  rw [h1]
  simp only
  rw [getD_modifyIdx_self _ _ _ oi hoi]

/-! ### Claims C3, C4, C8, C2 -/

/-- C3: for a delta entry whose master operation is matched, the edit path
rejects with InsufficientPendingQuantity exactly when the proposed pending
quantity pendingOpsQty - deltaQty lies below the -1e-6 epsilon (the error
models the aborted transaction: bill, master and ledger keep their prior
state); otherwise it succeeds and the matched operation is stored with the
pending quantity clamped into [0, totalOpsQty] and a refreshed
timestamp. -/
theorem adjustMasterOne_spec {catalog : List Operation} {now : Nat} {m : JobopsMaster}
    {d : DeltaEntry} {jop : JobOp}
    (hf : m.ops.find? (masterOpMatches catalog d) = some jop) :
    (adjustMasterOne catalog now m d = .error .InsufficientPendingQuantity ↔
       jop.pendingOpsQty - d.deltaQty < -(1 / 1000000)) ∧
    (∀ m' adj, adjustMasterOne catalog now m d = .ok (m', adj) →
       (m'.ops.find? (masterOpMatches catalog d) =
          some { jop with
                 pendingOpsQty := max 0 (min jop.totalOpsQty (jop.pendingOpsQty - d.deltaQty)),
                 lastUpdatedDate := now }) ∧
       adj = ⟨jsTrim d.opsName, jop.valuePerBook, d.deltaQty⟩) := by
  have hpres : ∀ j : JobOp,
      masterOpMatches catalog d
        { j with pendingOpsQty := max 0 (min jop.totalOpsQty (jop.pendingOpsQty - d.deltaQty)),
                 lastUpdatedDate := now } = masterOpMatches catalog d j := fun j => rfl
  constructor
  · by_cases hlt : jop.pendingOpsQty - d.deltaQty < -(1 / 1000000)
    · simp only [adjustMasterOne, hf]
      rw [if_pos hlt]
      exact iff_of_true rfl hlt
    · simp only [adjustMasterOne, hf]
      rw [if_neg hlt]
      exact iff_of_false (by simp) hlt
  · intro m' adj h
    simp only [adjustMasterOne, hf] at h
    split at h
    · simp at h
    next hlt =>
      simp only [Except.ok.injEq, Prod.mk.injEq] at h
      obtain ⟨hm', hadj⟩ := h
      constructor
      · rw [← hm']
        simp only
        rw [find?_modifyFirst hpres m.ops, hf]
        rfl
      · exact hadj.symm

/-- C3 witness: the +3 Drilling delta on master0 (pending 5 of 10) is not
rejected, and stores pending 2 with the new timestamp. -/
theorem adjustMasterOne_spec_witness :
    (master0.ops.find? (masterOpMatches catalog0 ⟨"Drilling", 10, 3⟩) =
       some ⟨"op1", 10, 10, 5, 0⟩) ∧
    (adjustMasterOne catalog0 7 master0 ⟨"Drilling", 10, 3⟩ =
         .error .InsufficientPendingQuantity ↔
       (5 : ℚ) - 3 < -(1 / 1000000)) ∧
    (∀ m' adj, adjustMasterOne catalog0 7 master0 ⟨"Drilling", 10, 3⟩ = .ok (m', adj) →
       (m'.ops.find? (masterOpMatches catalog0 ⟨"Drilling", 10, 3⟩) =
          some ⟨"op1", 10, 10, max 0 (min 10 ((5 : ℚ) - 3)), 7⟩) ∧
       adj = ⟨jsTrim "Drilling", 10, 3⟩) := by
  refine ⟨by decide, ?_, ?_⟩
  · exact (@adjustMasterOne_spec catalog0 7 master0 ⟨"Drilling", 10, 3⟩ ⟨"op1", 10, 10, 5, 0⟩
      (by decide)).1
  · exact (@adjustMasterOne_spec catalog0 7 master0 ⟨"Drilling", 10, 3⟩ ⟨"op1", 10, 10, 5, 0⟩
      (by decide)).2

/-- C4: when a change with a nonzero delta updates a bill line and the
matching master operation is adjusted without either clamp engaging, the
bill line's qtyCompleted moves by exactly the negation of the move of the
master's pendingOpsQty (the zero-sum law). -/
theorem editZeroSum {bill : Bill} {ds : DeltaAcc} {jn nm : String} {rate? : Option ℚ}
    {nq : ℚ} {bill' : Bill} {ds' : DeltaAcc} {ji oi : Nat}
    {catalog : List Operation} {now : Nat} {m m' : JobopsMaster} {jop : JobOp}
    {d : DeltaEntry} {adj : WDAdj}
    (hfind : findBillOp bill (buildKey jn nm (rate?.getD 0)) = some (ji, oi))
    (hchanged : nq ≠ (billOpAt bill ji oi).qtyCompleted)
    (happ : applyChange bill ds ⟨some jn, some nm, rate?, some nq⟩ = .ok (bill', ds'))
    (hd : d = ⟨jsTrim (billOpAt bill ji oi).opsName, (billOpAt bill ji oi).rate,
               nq - (billOpAt bill ji oi).qtyCompleted⟩)
    (hjop : m.ops.find? (masterOpMatches catalog d) = some jop)
    (hM : adjustMasterOne catalog now m d = .ok (m', adj))
    (hlo : 0 ≤ jop.pendingOpsQty - d.deltaQty)
    (hhi : jop.pendingOpsQty - d.deltaQty ≤ jop.totalOpsQty) :
    (billOpAt bill' ji oi).qtyCompleted - (billOpAt bill ji oi).qtyCompleted =
      -(pendingFor catalog d m' - pendingFor catalog d m) := by
  simp only [applyChange, hfind] at happ
  split at happ
  · simp at happ
  split at happ
  · simp at happ
  split at happ
  · simp at happ
  split at happ
  next hzero => exact absurd hzero (sub_ne_zero.mpr hchanged)
  next hzero =>
    simp only [Except.ok.injEq, Prod.mk.injEq] at happ
    obtain ⟨hbill', _⟩ := happ
    obtain ⟨hji, hoi⟩ := findBillOp_bounds hfind
    have hq' : (billOpAt bill' ji oi).qtyCompleted = nq := by
      rw [← hbill', billOpAt_billSetOp hji hoi]
    obtain ⟨hfind', _⟩ := (adjustMasterOne_spec hjop).2 m' adj hM
    have hclamp : max 0 (min jop.totalOpsQty (jop.pendingOpsQty - d.deltaQty)) =
        jop.pendingOpsQty - d.deltaQty := by
      rw [min_eq_right hhi, max_eq_right hlo]
    have hpf' : pendingFor catalog d m' = jop.pendingOpsQty - d.deltaQty := by
      unfold pendingFor
      rw [hfind']
      simp [hclamp]
    have hpf : pendingFor catalog d m = jop.pendingOpsQty := by
      unfold pendingFor
      rw [hjop]
      rfl
    rw [hq', hpf', hpf, hd]
    ring

/-- C4 witness: the chg0 edit (5 → 8) moves the bill line by +3 and
master0's pending from 5 to 2: +3 = -(2 - 5). -/
theorem editZeroSum_witness :
    findBillOp bill0 (buildKey "J1" "Drilling" ((some (10 : ℚ)).getD 0)) = some (0, 0) ∧
    (8 : ℚ) ≠ (billOpAt bill0 0 0).qtyCompleted ∧
    applyChange bill0 [] ⟨some "J1", some "Drilling", some 10, some 8⟩ =
      .ok (bill1, [("J1", [⟨"Drilling", 10, 3⟩])]) ∧
    (⟨"Drilling", 10, 3⟩ : DeltaEntry) =
      ⟨jsTrim (billOpAt bill0 0 0).opsName, (billOpAt bill0 0 0).rate,
       8 - (billOpAt bill0 0 0).qtyCompleted⟩ ∧
    master0.ops.find? (masterOpMatches catalog0 ⟨"Drilling", 10, 3⟩) =
      some ⟨"op1", 10, 10, 5, 0⟩ ∧
    adjustMasterOne catalog0 7 master0 ⟨"Drilling", 10, 3⟩ =
      .ok (⟨"J1", [⟨"op1", 10, 10, 2, 7⟩]⟩, ⟨"Drilling", 10, 3⟩) ∧
    (billOpAt bill1 0 0).qtyCompleted - (billOpAt bill0 0 0).qtyCompleted =
      -(pendingFor catalog0 ⟨"Drilling", 10, 3⟩ ⟨"J1", [⟨"op1", 10, 10, 2, 7⟩]⟩ -
        pendingFor catalog0 ⟨"Drilling", 10, 3⟩ master0) := by
  refine ⟨by decide, by decide, by decide, by decide, by decide, by decide, ?_⟩
  exact @editZeroSum bill0 [] "J1" "Drilling" (some 10) 8 bill1
    [("J1", [⟨"Drilling", 10, 3⟩])] 0 0 catalog0 7 master0
    ⟨"J1", [⟨"op1", 10, 10, 2, 7⟩]⟩ ⟨"op1", 10, 10, 5, 0⟩ ⟨"Drilling", 10, 3⟩
    ⟨"Drilling", 10, 3⟩ (by decide) (by decide) (by decide) (by decide) (by decide)
    (by decide) (by decide) (by decide)

/-- C8: on reversal of a bill line whose operation resolves in the catalog
and matches a master operation and a ledger entry (by opsId), the master's
pendingOpsQty becomes max 0 (pendingOpsQty + qtyCompleted) — a lower clamp
only, no upper clamp at totalOpsQty — and the ledger entry is lowered by
qtyCompleted, being removed entirely when the result is zero or below. -/
theorem reversalRestoresLine {catalog : List Operation} {now : Nat} {m : JobopsMaster}
    {op : BillOp} {oper : Operation} {jop : JobOp} {opsDone : List WDOp} {e : WDOp}
    (hcat : catalogFindByName catalog (jsTrim op.opsName) = some oper)
    (hjop : m.ops.find? (masterOpIdMatches oper.id) = some jop)
    (hwd : opsDone.find? (wdOpIdMatches oper.id) = some e) :
    ((restoreMasterForOp catalog now m op).ops.find? (masterOpIdMatches oper.id) =
       some { jop with
              pendingOpsQty := max 0 (jop.pendingOpsQty + op.qtyCompleted),
              lastUpdatedDate := now }) ∧
    (e.opsDoneQty - op.qtyCompleted ≤ 0 →
       (reverseWdForOp catalog opsDone op).find? (wdOpIdMatches oper.id) = none) ∧
    (0 < e.opsDoneQty - op.qtyCompleted →
       (reverseWdForOp catalog opsDone op).find? (wdOpIdMatches oper.id) =
         some { e with opsDoneQty := e.opsDoneQty - op.qtyCompleted }) := by
  have hpresM : ∀ a : JobOp,
      masterOpIdMatches oper.id
        { a with pendingOpsQty := max 0 (a.pendingOpsQty + op.qtyCompleted),
                 lastUpdatedDate := now } = masterOpIdMatches oper.id a := fun a => rfl
  have hpresW : ∀ a : WDOp,
      wdOpIdMatches oper.id
        { a with opsDoneQty := max 0 (e.opsDoneQty - op.qtyCompleted) } =
        wdOpIdMatches oper.id a := fun a => rfl
  refine ⟨?_, ?_, ?_⟩
  · simp only [restoreMasterForOp, hcat]
    rw [find?_modifyFirst hpresM m.ops, hjop]
    rfl
  · intro hle
    have hmax : max 0 (e.opsDoneQty - op.qtyCompleted) = 0 := max_eq_left hle
    simp only [reverseWdForOp, hcat, hwd]
    rw [if_pos (by rw [hmax])]
    exact find?_filter_not _ _
  · intro hlt
    have hmax : max 0 (e.opsDoneQty - op.qtyCompleted) =
        e.opsDoneQty - op.qtyCompleted := max_eq_right (le_of_lt hlt)
    simp only [reverseWdForOp, hcat, hwd]
    rw [if_neg (by rw [hmax]; exact not_le.mpr hlt)]
    rw [find?_modifyFirst hpresW opsDone, hwd]
    simp [hmax]

/-- C8 witness: reversing the Drilling line (qtyCompleted 8) raises pending
2 to 10 and removes the ledger entry holding 5 (5 - 8 ≤ 0). -/
theorem reversalRestoresLine_witness :
    catalogFindByName catalog0 (jsTrim (⟨"Drilling", 10, 10, 8, 80⟩ : BillOp).opsName) =
      some ⟨"op1", "Drilling"⟩ ∧
    (⟨"J1", [⟨"op1", 10, 10, 2, 7⟩]⟩ : JobopsMaster).ops.find?
      (masterOpIdMatches "op1") = some ⟨"op1", 10, 10, 2, 7⟩ ∧
    ([⟨some "op1", "Drilling", 10, 5, 0⟩] : List WDOp).find? (wdOpIdMatches "op1") =
      some ⟨some "op1", "Drilling", 10, 5, 0⟩ ∧
    ((restoreMasterForOp catalog0 9 ⟨"J1", [⟨"op1", 10, 10, 2, 7⟩]⟩
        ⟨"Drilling", 10, 10, 8, 80⟩).ops.find? (masterOpIdMatches "op1") =
      some ⟨"op1", 10, 10, max 0 ((2 : ℚ) + 8), 9⟩) ∧
    ((5 : ℚ) - 8 ≤ 0 →
      (reverseWdForOp catalog0 [⟨some "op1", "Drilling", 10, 5, 0⟩]
          ⟨"Drilling", 10, 10, 8, 80⟩).find? (wdOpIdMatches "op1") = none) := by
  have hmain := @reversalRestoresLine catalog0 9 ⟨"J1", [⟨"op1", 10, 10, 2, 7⟩]⟩
    ⟨"Drilling", 10, 10, 8, 80⟩ ⟨"op1", "Drilling"⟩ ⟨"op1", 10, 10, 2, 7⟩
    [⟨some "op1", "Drilling", 10, 5, 0⟩] ⟨some "op1", "Drilling", 10, 5, 0⟩
    (by decide) (by decide) (by decide)
  exact ⟨by decide, by decide, by decide, hmain.1, hmain.2.1⟩

/-- C2: the two ledger matching strategies disagree on entries the edit
path creates.  Running the chg0 edit on st0 creates ledger entry entry1
with opsId null; the edit path's own matcher (name + 2-decimal value)
finds that entry, but the delete path resolves Drilling to catalog id op1
and matches entries by String(opsId), which is the literal "null" for
entry1 — so the reversal leaves the ledger record untouched (work done is
never rolled back) while restoring the master record. -/
theorem editCreatedEntryInvisibleToDelete :
    editBillQuantities catalog0 (some "C0001") (some [chg0]) st0 7 = .ok (st1, bill1) ∧
    st1.ledgers = [wd1] ∧ wd1.opsDone = [entry1] ∧ entry1.opsId = none ∧
    catalogFindByName catalog0 (jsTrim "Drilling") = some ⟨"op1", "Drilling"⟩ ∧
    List.find? (wdOpIdMatches "op1") wd1.opsDone = none ∧
    List.find? (wdOpMatches ⟨"Drilling", 10, -8⟩) wd1.opsDone = some entry1 ∧
    (reverseBillOnDelete catalog0 "C0001" ⟨bill1, st1.masters, st1.ledgers⟩ 9).ledgers =
      [wd1] :=
  ⟨by decide, by decide, by decide, by decide, by decide, by decide, by decide, by decide⟩

end BillsJs
